import Mathlib

/-!
Verification of the counting / boundary-search / training pipeline of
`train_contour.py` (PropantCheckChallenge).

The source manipulates numpy arrays of connected-component areas.  We embed
the arithmetic core shallowly:

* component areas are natural numbers (a connected component occupies at
  least one pixel, so real Area Vectors have entries `≥ 1`);
* floating-point means and ratios become exact rationals (`ℚ`);
* `np.round` is round-half-to-even, embedded as `roundHalfEven`;
* numpy's NaN propagation into `int(...)` (which raises `ValueError`) is
  embedded as `Option`: `none` models the raised `ValueError`.
-/

/-- Round-half-to-even on rationals, the rounding rule of `np.round`. -/
def roundHalfEven (q : ℚ) : ℤ :=
  if q - ⌊q⌋ < 1/2 then ⌊q⌋
  else if (1:ℚ)/2 < q - ⌊q⌋ then ⌊q⌋ + 1
  else if ⌊q⌋ % 2 = 0 then ⌊q⌋ else ⌊q⌋ + 1

/-- Embedding of `get_count(im, l, r, res=False)` from `train_contour.py`:

    singular_mask = (min_area < label_area) & (label_area <= max_area)
    circle_area = np.mean(label_area[singular_mask])
    found = int(np.sum(np.round(label_area / circle_area)))

When the mask selects nothing, `np.mean` of the empty slice is NaN.  If
`label_area` is itself empty, `label_area / nan` is the empty array, whose
sum is `0.0`, so `found = 0` with no exception.  If `label_area` is
non-empty, the ratios are NaN and `int(nan)` raises `ValueError` (`none`).
If the selected areas sum to `0` (only possible when a zero area is
selected, i.e. never for a real Area Vector), the ratio array contains NaN
and `int` again raises `ValueError` (`none`). -/
def get_count (label_area : List ℕ) (l r : ℤ) : Option ℤ :=
  let S := label_area.filter (fun (a : ℕ) => l < (a:ℤ) ∧ (a:ℤ) ≤ r)
  if S.length = 0 then
    (if label_area.length = 0 then some 0 else none)
  else if S.sum = 0 then none
  else
    let circle_area : ℚ := (S.sum : ℚ) / (S.length : ℚ)
    some ((label_area.map (fun (a : ℕ) => roundHalfEven ((a : ℚ) / circle_area))).sum)

/-- Embedding of `label_area = stats[1:, cv2.CC_STAT_AREA]` in `get_stats`:
the Area Vector is the area column of the statistics with the background
row (index 0) dropped.  `stats` is modelled by its area column. -/
def get_stats_areas (stats : List ℕ) : List ℕ := stats.drop 1

/-- The grid of candidate upper bounds scanned by `brute_force_bounds`:
`range(l + 10, 1000, 10)` with `l = 30`, i.e. `40, 50, ..., 990`. -/
def rGrid : List ℤ := (List.range 96).map (fun i => 40 + 10 * (i : ℤ))

/-- Relative error of one candidate `r` in the scan of
`brute_force_bounds`: `found` is `get_count(im, l=30, r=r, res=False)` with
`ValueError` mapped to `0` by the `except` clause, and
`error = abs(found - true) / true`. -/
def searchError (V : List ℕ) (t : ℚ) (r : ℤ) : ℚ :=
  |(((get_count V 30 r).getD 0 : ℤ) : ℚ) - t| / t

/-- One iteration of the scan: `if min_error > error: min_error = error;
best_r = r`.  The state is `(best_r, min_error)` where `best_r = none`
models the not-yet-assigned Python variable. -/
def searchStep (f : ℤ → ℚ) (s : Option ℤ × ℚ) (r : ℤ) : Option ℤ × ℚ :=
  if f r < s.2 then (some r, f r) else s

/-- Embedding of the per-image body of `brute_force_bounds`: scan the grid
starting from `min_error = 100000` and unassigned `best_r`, then return
`((l, best_r), min_error)` with `l = 30`.  If no candidate ever improved on
`100000`, `best_r` was never assigned and the Python code raises
`NameError`; that outcome is `none`. -/
def bruteForceImage (V : List ℕ) (t : ℚ) : Option ((ℤ × ℤ) × ℚ) :=
  match rGrid.foldl (searchStep (searchError V t)) (none, 100000) with
  | (none, _) => none
  | (some r, e) => some ((30, r), e)

/-- Bin index of an area under `pd.cut(..., bins=np.arange(0, 1000, 10),
include_lowest=True)`: the 100 edges `0, 10, ..., 990` give the 99
intervals `[0,10], (10,20], ..., (980,990]`, and an area `a` with
`1 ≤ a ≤ 990` lands in interval `(a-1)/10` (area `0` would land in the
lowest, closed, interval). -/
def binOf (a : ℕ) : ℕ := (a - 1) / 10

/-- Embedding of the feature construction of `brute_force_bounds`:

    out = pd.cut(p[p.CC_STAT_AREA < 1000].CC_STAT_AREA,
                 bins=np.arange(0, 1000, 10), include_lowest=True)
    train_x.append(out.value_counts(normalize=True, sort=False).to_list())

The input is the area column of the full statistics (background row
included).  Areas `≥ 1000` are filtered out first; areas in `991..999`
survive that filter but fall outside the last bin edge `990`, so `pd.cut`
maps them to NaN and `value_counts` drops them.  `value_counts` lists all
99 categories in bin order; `normalize=True` divides by the number of
binned items, which is a `0/0 = NaN` when nothing was binned — a NaN entry
is modelled as `none`. -/
def build_features (areas : List ℕ) : List (Option ℚ) :=
  let restricted := areas.filter (fun a => a < 1000)
  let binned := restricted.filter (fun a => a ≤ 990)
  (List.range 99).map (fun i =>
    if binned.length = 0 then none
    else some (((binned.filter (fun a => binOf a = i)).length : ℚ) / (binned.length : ℚ)))

/-- Embedding of `read_data_frame`: a table row is `(ImageId, prop_count)`
(the dropped index-artifact columns play no role); keep rows whose label is
present (`~df.prop_count.isna()`) and whose identifier is not in
`drop_images` (`~df.ImageId.isin(drop_images)`). -/
def read_data_frame (rows : List (ℤ × Option ℚ)) (drop_images : List ℤ) :
    List (ℤ × Option ℚ) :=
  (rows.filter (fun p => ¬ p.2 = none)).filter (fun p => ¬ p.1 ∈ drop_images)

/-- Embedding of `np.in1d(ids, test_ids).nonzero()[0]` in `get_model`: the
positions of the identifiers that belong to `test_ids`. -/
def test_indices (ids : List ℤ) (test_ids : List ℤ) : List ℕ :=
  (List.range ids.length).filter (fun i => ids.getD i 0 ∈ test_ids)

/-- Helper for `np_delete`: walk the list with its running position and
drop the elements whose position is listed. -/
def npDeleteGo {α : Type} (idxs : List ℕ) : ℕ → List α → List α
  | _, [] => []
  | i, x :: rest =>
      if i ∈ idxs then npDeleteGo idxs (i+1) rest
      else x :: npDeleteGo idxs (i+1) rest

/-- Embedding of `np.delete(xs, idxs, axis=0)`: remove the rows at the
given positions. -/
def np_delete {α : Type} (xs : List α) (idxs : List ℕ) : List α :=
  npDeleteGo idxs 0 xs

set_option maxRecDepth 1000000

/-! ### Helper lemmas about `roundHalfEven` and `get_count` -/

lemma roundHalfEven_nonneg (q : ℚ) (h : 0 ≤ q) : 0 ≤ roundHalfEven q := by
  unfold roundHalfEven
  have h0 : (0:ℤ) ≤ ⌊q⌋ := Int.floor_nonneg.mpr h
  split_ifs <;> omega

lemma get_count_perm (V W : List ℕ) (l r : ℤ) (h : V.Perm W) :
    get_count V l r = get_count W l r := by
  have hf := h.filter (fun (a : ℕ) => decide (l < (a:ℤ) ∧ (a:ℤ) ≤ r))
  have hlen := hf.length_eq
  have hsum := hf.sum_eq
  have hVlen := h.length_eq
  have hmap : ∀ g : ℕ → ℤ, (V.map g).sum = (W.map g).sum :=
    fun g => (h.map g).sum_eq
  simp only [get_count, hlen, hsum, hVlen, hmap]

lemma get_count_some_nonneg (V : List ℕ) (l r : ℤ)
    (h1 : ∀ a ∈ V, 1 ≤ a) (hw : ∃ a ∈ V, l < (a:ℤ) ∧ (a:ℤ) ≤ r) :
    ∃ n : ℤ, get_count V l r = some n ∧ 0 ≤ n := by
  obtain ⟨a, haV, hpa⟩ := hw
  have haS : a ∈ V.filter (fun (a : ℕ) => decide (l < (a:ℤ) ∧ (a:ℤ) ≤ r)) :=
    List.mem_filter.mpr ⟨haV, by simp [hpa.1, hpa.2]⟩
  have hlen : (V.filter (fun (a : ℕ) => decide (l < (a:ℤ) ∧ (a:ℤ) ≤ r))).length ≠ 0 := by
    intro h0
    rw [List.length_eq_zero] at h0
    rw [h0] at haS
    exact (List.not_mem_nil a) haS
  have hsum : (V.filter (fun (a : ℕ) => decide (l < (a:ℤ) ∧ (a:ℤ) ≤ r))).sum ≠ 0 := by
    intro h0
    have ha0 := List.sum_eq_zero_iff.mp h0 a haS
    have := h1 a haV
    omega
  have hmean : (0:ℚ) <
      ((V.filter (fun (a : ℕ) => decide (l < (a:ℤ) ∧ (a:ℤ) ≤ r))).sum : ℚ) /
        ((V.filter (fun (a : ℕ) => decide (l < (a:ℤ) ∧ (a:ℤ) ≤ r))).length : ℚ) := by
    apply div_pos <;> exact_mod_cast Nat.pos_of_ne_zero (by assumption)
  have hform : get_count V l r = some ((V.map (fun (a : ℕ) => roundHalfEven ((a : ℚ) /
      (((V.filter (fun (a : ℕ) => decide (l < (a:ℤ) ∧ (a:ℤ) ≤ r))).sum : ℚ) /
        ((V.filter (fun (a : ℕ) => decide (l < (a:ℤ) ∧ (a:ℤ) ≤ r))).length : ℚ))))).sum) := by
    simp only [get_count, if_neg hlen, if_neg hsum]
  refine ⟨_, hform, ?_⟩
  apply List.sum_nonneg
  intro x hx
  obtain ⟨b, _, rfl⟩ := List.mem_map.mp hx
  exact roundHalfEven_nonneg _ (div_nonneg (by positivity) hmean.le)

/-! ### Claims about the count estimator: C1, C8, C10 -/

/-- C10: for an empty Area Vector and any bounds `l < r`, `get_count` with
`res=False` returns the count `0` without signaling any error: dividing the
empty array by the undefined (NaN) mean yields an empty array whose sum is
`0`. -/
theorem C10_get_count_empty_vector (l r : ℤ) (h : l < r) :
    get_count [] l r = some 0 := rfl

/-- Witness for C10 at `l = 0`, `r = 10`. -/
theorem C10_get_count_empty_vector_witness : get_count [] 0 10 = some 0 :=
  C10_get_count_empty_vector 0 10 (by decide)

/-- C1, counterexample: the claim "`get_count` (res=False) signals the
error condition iff no element of `V` lies in `(l, r]`, including when `V`
is empty" is false at `V = []`, `l = 0`, `r = 10`: no element of the empty
vector lies in the window, yet no error is signaled (`some 0`, not
`none`). -/
theorem C1_error_iff_counterexample :
    ¬(get_count [] 0 10 = none ↔
        ∀ a ∈ ([] : List ℕ), ¬((0:ℤ) < (a:ℤ) ∧ (a:ℤ) ≤ 10)) := by
  decide

/-- C1, amended: for an Area Vector `V` (entries `≥ 1`) and bounds
`l < r`, `get_count` with `res=False` signals the error condition iff no
element of `V` lies in `(l, r]` *and `V` is non-empty*: on an empty vector
the estimator silently returns `0` instead. -/
theorem C1_error_iff_amended (V : List ℕ) (l r : ℤ) (hlr : l < r)
    (h1 : ∀ a ∈ V, 1 ≤ a) :
    get_count V l r = none ↔
      ((∀ a ∈ V, ¬(l < (a:ℤ) ∧ (a:ℤ) ≤ r)) ∧ V ≠ []) := by
  by_cases hS : V.filter (fun (a : ℕ) => decide (l < (a:ℤ) ∧ (a:ℤ) ≤ r)) = []
  · have hwin : ∀ a ∈ V, ¬(l < (a:ℤ) ∧ (a:ℤ) ≤ r) := by
      intro a ha
      have := List.filter_eq_nil_iff.mp hS a ha
      simpa using this
    by_cases hV : V = []
    · subst hV
      simp [get_count]
    · have hnone : get_count V l r = none := by
        have hVlen : ¬ V.length = 0 := fun h0 => hV (List.length_eq_zero.mp h0)
        simp only [get_count, hS]
        simp [hVlen]
      rw [hnone]
      exact iff_of_true rfl ⟨hwin, hV⟩
  · have hexists : ∃ a ∈ V, l < (a:ℤ) ∧ (a:ℤ) ≤ r := by
      obtain ⟨a, ha⟩ := List.exists_mem_of_ne_nil _ hS
      have hmem := List.mem_filter.mp ha
      exact ⟨a, hmem.1, by simpa using hmem.2⟩
    obtain ⟨n, hn, -⟩ := get_count_some_nonneg V l r h1 hexists
    obtain ⟨a, ha, hpa⟩ := hexists
    rw [hn]
    exact iff_of_false (by simp) (fun hc => absurd hpa (hc.1 a ha))

/-- Witness for C1's amended theorem at `V = [5]`, `l = 0`, `r = 10`. -/
theorem C1_error_iff_amended_witness :
    get_count [5] 0 10 = none ↔
      ((∀ a ∈ ([5] : List ℕ), ¬((0:ℤ) < (a:ℤ) ∧ (a:ℤ) ≤ 10)) ∧
        ([5] : List ℕ) ≠ []) :=
  C1_error_iff_amended [5] 0 10 (by decide) (by decide)

/-- C8: on an Area Vector `V` (entries `≥ 1`) and a range `(l, r]`
containing at least one element of `V`, the estimate of `get_count` is a
non-negative integer and is unchanged under any permutation of `V`. -/
theorem C8_estimate_nonneg_perm_invariant (V W : List ℕ) (l r : ℤ)
    (hperm : V.Perm W) (h1 : ∀ a ∈ V, 1 ≤ a)
    (hw : ∃ a ∈ V, l < (a:ℤ) ∧ (a:ℤ) ≤ r) :
    ∃ n : ℤ, 0 ≤ n ∧ get_count V l r = some n ∧ get_count W l r = some n := by
  obtain ⟨n, hn, hnn⟩ := get_count_some_nonneg V l r h1 hw
  exact ⟨n, hnn, hn, (get_count_perm V W l r hperm) ▸ hn⟩

/-- Witness for C8 at `V = [50, 55]`, `W = [55, 50]`, `(l, r] = (30, 60]`. -/
theorem C8_estimate_nonneg_perm_invariant_witness :
    ∃ n : ℤ, 0 ≤ n ∧ get_count [50, 55] 30 60 = some n ∧
      get_count [55, 50] 30 60 = some n :=
  C8_estimate_nonneg_perm_invariant [50, 55] [55, 50] 30 60
    (by decide) (by decide) (by decide)

/-! ### Helper lemmas about the boundary-search scan -/

lemma foldl_searchStep_min (f : ℤ → ℚ) (rs : List ℤ) (s : Option ℤ × ℚ) :
    (rs.foldl (searchStep f) s).2 ≤ s.2 ∧
      ∀ r ∈ rs, (rs.foldl (searchStep f) s).2 ≤ f r := by
  induction rs generalizing s with
  | nil => exact ⟨le_refl _, by simp⟩
  | cons r rest ih =>
    have hstep : (searchStep f s r).2 ≤ s.2 ∧ (searchStep f s r).2 ≤ f r := by
      unfold searchStep
      split_ifs with h
      · exact ⟨le_of_lt h, le_refl _⟩
      · exact ⟨le_refl _, le_of_not_lt h⟩
    obtain ⟨ih1, ih2⟩ := ih (searchStep f s r)
    rw [List.foldl_cons]
    refine ⟨le_trans ih1 hstep.1, ?_⟩
    intro x hx
    rcases List.mem_cons.mp hx with rfl | hx2
    · exact le_trans ih1 hstep.2
    · exact ih2 x hx2

lemma foldl_searchStep_reaches (f : ℤ → ℚ) (rs : List ℤ) (s : Option ℤ × ℚ) :
    rs.foldl (searchStep f) s = s ∨
      ∃ u ∈ rs, rs.foldl (searchStep f) s = (some u, f u) ∧ f u < s.2 := by
  induction rs generalizing s with
  | nil => exact Or.inl rfl
  | cons r rest ih =>
    rw [List.foldl_cons]
    by_cases h : f r < s.2
    · have hs : searchStep f s r = (some r, f r) := by
        unfold searchStep
        rw [if_pos h]
      rcases ih (searchStep f s r) with h1 | ⟨u, hu, h2, h3⟩
      · exact Or.inr ⟨r, List.mem_cons_self r rest, by rw [h1, hs], h⟩
      · refine Or.inr ⟨u, List.mem_cons_of_mem r hu, h2, ?_⟩
        rw [hs] at h3
        exact lt_trans h3 h
    · have hs : searchStep f s r = s := by
        unfold searchStep
        rw [if_neg h]
      rw [hs]
      rcases ih s with h1 | ⟨u, hu, h2, h3⟩
      · exact Or.inl h1
      · exact Or.inr ⟨u, List.mem_cons_of_mem r hu, h2, h3⟩

lemma foldl_searchStep_first (f : ℤ → ℚ) :
    ∀ rs : List ℤ, rs.Pairwise (· < ·) →
      ∀ s : Option ℤ × ℚ, (∀ r0, s.1 = some r0 → ∀ r ∈ rs, r0 < r) →
        ∀ u, (rs.foldl (searchStep f) s).1 = some u →
          ∀ x ∈ rs, f x = (rs.foldl (searchStep f) s).2 → u ≤ x := by
  intro rs
  induction rs with
  | nil =>
    intro _ s _ u _ x hx
    exact absurd hx (List.not_mem_nil x)
  | cons r rest ih =>
    intro hpw s hGood u hres x hx hfx
    have hpw2 := List.pairwise_cons.mp hpw
    rw [List.foldl_cons] at hres hfx
    have hGood2 : ∀ r0, (searchStep f s r).1 = some r0 → ∀ y ∈ rest, r0 < y := by
      intro r0 h0 y hy
      unfold searchStep at h0
      by_cases h : f r < s.2
      · rw [if_pos h] at h0
        cases h0
        exact hpw2.1 y hy
      · rw [if_neg h] at h0
        exact hGood r0 h0 y (List.mem_cons_of_mem r hy)
    rcases List.mem_cons.mp hx with rfl | hx2
    · by_cases h : f x < s.2
      · have hs : searchStep f s x = (some x, f x) := by
          unfold searchStep
          rw [if_pos h]
        rcases foldl_searchStep_reaches f rest (searchStep f s x) with h1 | ⟨u2, _, h2, h3⟩
        · rw [h1, hs] at hres
          have hux : some x = some u := hres
          exact le_of_eq (Option.some.inj hux).symm
        · rw [h2] at hfx
          rw [hs] at h3
          have h3b : f u2 < f x := h3
          have hfx2 : f x = f u2 := hfx
          rw [hfx2] at h3b
          exact absurd h3b (lt_irrefl _)
      · have hs : searchStep f s x = s := by
          unfold searchStep
          rw [if_neg h]
        rw [hs] at hres hfx
        rcases foldl_searchStep_reaches f rest s with h1 | ⟨u2, _, h2, h3⟩
        · rw [h1] at hres hfx
          exact le_of_lt (hGood u hres x (List.mem_cons_self x rest))
        · rw [h2] at hfx
          have hfx2 : f x = f u2 := hfx
          have hle := le_of_not_lt h
          rw [hfx2] at hle
          exact absurd (lt_of_lt_of_le h3 hle) (lt_irrefl _)
    · exact ih hpw2.2 (searchStep f s r) hGood2 u hres x hx2 hfx

lemma rGrid_pairwise : rGrid.Pairwise (· < ·) := by decide

lemma rGrid_mem_40 : (40:ℤ) ∈ rGrid := by decide

lemma rGrid_lower_bound : ∀ r ∈ rGrid, (40:ℤ) ≤ r := by decide

lemma bruteForceImage_eq_some (V : List ℕ) (t : ℚ) (b : ℤ × ℤ) (e : ℚ)
    (hres : bruteForceImage V t = some (b, e)) :
    b.1 = 30 ∧ b.2 ∈ rGrid ∧ searchError V t b.2 = e ∧
      (∀ x ∈ rGrid, e ≤ searchError V t x) ∧
      (∀ x ∈ rGrid, searchError V t x = e → b.2 ≤ x) := by
  rcases hR : rGrid.foldl (searchStep (searchError V t)) (none, 100000) with ⟨ob, me⟩
  unfold bruteForceImage at hres
  rw [hR] at hres
  cases ob with
  | none => exact absurd hres (by simp)
  | some u =>
    simp only [Option.some.injEq] at hres
    obtain ⟨rfl, rfl⟩ := Prod.mk.inj hres.symm
    rcases foldl_searchStep_reaches (searchError V t) rGrid (none, 100000) with h1 | ⟨u2, hu2, h2, -⟩
    · rw [hR] at h1
      exact absurd (Prod.mk.inj h1).1 (by simp)
    · rw [hR] at h2
      have h2a := Prod.mk.inj h2
      have he1 : u = u2 := Option.some.inj h2a.1
      subst he1
      have he2 : e = searchError V t u := h2a.2
      have hmin := foldl_searchStep_min (searchError V t) rGrid (none, 100000)
      rw [hR] at hmin
      have hfirst := foldl_searchStep_first (searchError V t) rGrid rGrid_pairwise
        (none, 100000) (fun r0 h0 => absurd h0 (by simp)) u
      rw [hR] at hfirst
      refine ⟨rfl, hu2, he2.symm, ?_, ?_⟩
      · intro x hx
        exact hmin.2 x hx
      · intro x hx hfx
        exact hfirst rfl x hx hfx

/-! ### Claims about the boundary search: C2, C3, C7, C9 -/

/-- C2: whenever the per-image scan of `brute_force_bounds` returns a
boundary pair and a minimum error, the pair is `(30, r)` with `r` drawn
from the fixed grid `{40, 50, ..., 990}`, and the minimum relative error is
non-negative.  (When no candidate improves on the initial `100000`, the
Python loop never assigns `best_r` and crashes instead of returning, which
is the `none` case of `bruteForceImage`.) -/
theorem C2_bounds_from_grid (V : List ℕ) (t : ℚ) (b : ℤ × ℤ) (e : ℚ)
    (ht : 0 < t) (hres : bruteForceImage V t = some (b, e)) :
    b.1 = 30 ∧ b.2 ∈ rGrid ∧ 0 ≤ e := by
  obtain ⟨h30, hmem, hval, -, -⟩ := bruteForceImage_eq_some V t b e hres
  refine ⟨h30, hmem, ?_⟩
  rw [← hval]
  unfold searchError
  exact div_nonneg (abs_nonneg _) (le_of_lt ht)

/-- Witness for C2 on the empty Area Vector with true count `5`. -/
theorem C2_bounds_from_grid_witness :
    ((30:ℤ), (40:ℤ)).1 = 30 ∧ ((30:ℤ), (40:ℤ)).2 ∈ rGrid ∧ (0:ℚ) ≤ 1 :=
  C2_bounds_from_grid [] 5 (30, 40) 1 (by norm_num)
    (by with_unfolding_all decide)

/-- C9: when the scan returns `((30, r), e)`, then `e` is the relative
error at `r`, no grid candidate has a strictly smaller error, and `r` is
the smallest grid candidate achieving `e` — ties keep the first (smallest)
`r` because the grid is scanned in increasing order and the running best is
updated only on strict improvement. -/
theorem C9_first_minimum_wins (V : List ℕ) (t : ℚ) (b : ℤ × ℤ) (e : ℚ)
    (hres : bruteForceImage V t = some (b, e)) :
    b.2 ∈ rGrid ∧ searchError V t b.2 = e ∧
      (∀ x ∈ rGrid, e ≤ searchError V t x) ∧
      (∀ x ∈ rGrid, searchError V t x = e → b.2 ≤ x) := by
  obtain ⟨-, hmem, hval, hmin, hfirst⟩ := bruteForceImage_eq_some V t b e hres
  exact ⟨hmem, hval, hmin, hfirst⟩

/-- Witness for C9 on the empty Area Vector with true count `5`: the scan
returns `r = 40` with error `1`, the first grid point achieving the
minimum. -/
theorem C9_first_minimum_wins_witness :
    (40:ℤ) ∈ rGrid ∧ searchError [] 5 40 = 1 ∧
      (∀ x ∈ rGrid, 1 ≤ searchError [] 5 x) ∧
      (∀ x ∈ rGrid, searchError [] 5 x = 1 → (40:ℤ) ≤ x) :=
  C9_first_minimum_wins [] 5 (30, 40) 1 (by with_unfolding_all decide)

/-- C7: on the empty Area Vector with any strictly positive true count,
every grid candidate has estimate `0`, and the scan returns the first grid
value `r = 40` with minimum relative error exactly `1`. -/
theorem C7_empty_vector_search (t : ℚ) (ht : 0 < t) :
    (∀ r ∈ rGrid, get_count [] 30 r = some 0) ∧
      bruteForceImage [] t = some ((30, 40), 1) := by
  have hcount : ∀ r : ℤ, get_count [] 30 r = some 0 := fun r => rfl
  have herr : ∀ r : ℤ, searchError [] t r = 1 := by
    intro r
    unfold searchError
    rw [hcount r]
    simp only [Option.getD_some, Int.cast_zero, zero_sub, abs_neg,
      abs_of_pos ht]
    exact div_self (ne_of_gt ht)
  refine ⟨fun r _ => hcount r, ?_⟩
  rcases hR : rGrid.foldl (searchStep (searchError [] t)) (none, 100000) with ⟨ob, me⟩
  have hmin := foldl_searchStep_min (searchError [] t) rGrid (none, 100000)
  rw [hR] at hmin
  have hme : me ≤ 1 := by
    have := hmin.2 40 rGrid_mem_40
    rwa [herr 40] at this
  rcases foldl_searchStep_reaches (searchError [] t) rGrid (none, 100000) with h1 | ⟨u, hu, h2, -⟩
  · rw [hR] at h1
    have hme2 : me = 100000 := (Prod.mk.inj h1).2
    rw [hme2] at hme
    norm_num at hme
  · rw [hR] at h2
    obtain ⟨rfl, rfl⟩ := Prod.mk.inj h2
    have hfirst := foldl_searchStep_first (searchError [] t) rGrid rGrid_pairwise
      (none, 100000) (fun r0 h0 => absurd h0 (by simp)) u
    rw [hR] at hfirst
    have h40 : u ≤ 40 := by
      apply hfirst rfl 40 rGrid_mem_40
      rw [herr 40, herr u]
    have h40b : (40:ℤ) ≤ u := rGrid_lower_bound u hu
    have hu40 : u = 40 := le_antisymm h40 h40b
    unfold bruteForceImage
    rw [hR, hu40, herr 40]

/-- Witness for C7 at `t = 7`. -/
theorem C7_empty_vector_search_witness :
    (∀ r ∈ rGrid, get_count [] 30 r = some 0) ∧
      bruteForceImage [] 7 = some ((30, 40), 1) :=
  C7_empty_vector_search 7 (by norm_num)

/-- C3, counterexample: on the Area Vector `[50, 55, 52, 300]` with true
count `5`, the range `(30, 60]` does give mean `157/3 ≈ 52.3` and estimate
`9`, but it does *not* beat all alternative grid ranges: the scan returns
`r = 300` (estimate `3`, relative error `2/5`), whose error is strictly
smaller than the error `4/5` at `r = 60`. -/
theorem C3_favors_r60_counterexample :
    bruteForceImage [50, 55, 52, 300] 5 = some ((30, 300), 2/5) ∧
      get_count [50, 55, 52, 300] 30 60 = some 9 ∧
      searchError [50, 55, 52, 300] 5 300 < searchError [50, 55, 52, 300] 5 60 := by
  with_unfolding_all decide

/-- C3, amended: on `[50, 55, 52, 300]` with true count `5`, the range
`(30, 60]` has estimate `9 = 1 + 1 + 1 + 6` (mean `157/3 ≈ 52.3`) with
relative error `4/5`, but the boundary search returns `(l, r) = (30, 300)`
with estimate `3` and minimum relative error `2/5`. -/
theorem C3_search_on_example :
    bruteForceImage [50, 55, 52, 300] 5 = some ((30, 300), 2/5) ∧
      get_count [50, 55, 52, 300] 30 60 = some 9 ∧
      searchError [50, 55, 52, 300] 5 60 = 4/5 ∧
      get_count [50, 55, 52, 300] 30 300 = some 3 := by
  with_unfolding_all decide

/-! ### Helper lemmas about the feature histogram -/

lemma binOf_lt_99 (a : ℕ) (h : a ≤ 990) : binOf a < 99 := by
  unfold binOf
  omega

lemma filter_bin_cons_length (b : ℕ) (bs : List ℕ) (i : ℕ) :
    ((b :: bs).filter (fun a => binOf a = i)).length =
      (if binOf b = i then 1 else 0) +
        (bs.filter (fun a => binOf a = i)).length := by
  rw [List.filter_cons]
  by_cases h : binOf b = i
  · simp [h, Nat.add_comm]
  · simp [h]

lemma counts_partition (n : ℕ) (l : List ℕ) (hall : ∀ a ∈ l, binOf a < n) :
    ((List.range n).map
      (fun i => (l.filter (fun a => binOf a = i)).length)).sum = l.length := by
  induction l with
  | nil => simp
  | cons b bs ih =>
    have hb : binOf b < n := hall b (List.mem_cons_self b bs)
    have hbs : ∀ a ∈ bs, binOf a < n := fun a ha => hall a (List.mem_cons_of_mem b ha)
    have hbridge : ∀ f : ℕ → ℕ,
        ((List.range n).map f).sum = ∑ i ∈ Finset.range n, f i := fun f => rfl
    rw [hbridge]
    calc ∑ i ∈ Finset.range n, ((b :: bs).filter (fun a => binOf a = i)).length
        = ∑ i ∈ Finset.range n, ((if binOf b = i then 1 else 0) +
            (bs.filter (fun a => binOf a = i)).length) :=
          Finset.sum_congr rfl (fun i _ => filter_bin_cons_length b bs i)
      _ = (∑ i ∈ Finset.range n, (if binOf b = i then 1 else 0)) +
            ∑ i ∈ Finset.range n, (bs.filter (fun a => binOf a = i)).length :=
          Finset.sum_add_distrib
      _ = 1 + bs.length := by
          rw [Finset.sum_ite_eq (Finset.range n) (binOf b) (fun _ => 1),
            if_pos (Finset.mem_range.mpr hb), ← hbridge, ih hbs]
      _ = (b :: bs).length := by
          rw [List.length_cons, Nat.add_comm]

lemma list_sum_div (xs : List ℚ) (T : ℚ) :
    (xs.map (fun x => x / T)).sum = xs.sum / T := by
  induction xs with
  | nil => simp
  | cons x l ih => simp [ih, add_div]

lemma normalized_counts_sum (bn : List ℕ) (hb : ∀ a ∈ bn, binOf a < 99)
    (h0 : bn.length ≠ 0) :
    ((List.range 99).map (fun i =>
      ((bn.filter (fun a => binOf a = i)).length : ℚ) / (bn.length : ℚ))).sum = 1 := by
  have hpart := counts_partition 99 bn hb
  have hcomp : (List.range 99).map (fun i =>
      ((bn.filter (fun a => binOf a = i)).length : ℚ) / (bn.length : ℚ)) =
      (((List.range 99).map
          (fun i => (bn.filter (fun a => binOf a = i)).length)).map
        (fun c : ℕ => (c : ℚ))).map (fun x => x / (bn.length : ℚ)) := by
    rw [List.map_map, List.map_map]
    rfl
  rw [hcomp, list_sum_div, ← Nat.cast_list_sum, hpart]
  exact div_self (by exact_mod_cast h0)

/-! ### Claims about the feature builder and background: C4, C5 -/

/-- C4, counterexample: for the single-component statistics with area
`995`, some component has area `< 1000`, yet every feature entry is NaN
(`none`) — areas in `(990, 1000)` fall outside the last bin edge `990`, the
binned population is empty, and `value_counts(normalize=True)` divides `0`
by `0`.  In particular the entries do not lie in `[0, 1]` and do not sum
to `1` (reading the NaN entries as `0`, the sum is `0`). -/
theorem C4_feature_vector_counterexample :
    (∃ a ∈ [995], a < 1000) ∧ (∀ x ∈ build_features [995], x = none) ∧
      ((build_features [995]).map (fun x => x.getD 0)).sum = 0 := by
  with_unfolding_all decide

/-- C4, amended: the feature vector has fixed length 99, with width-10
bins covering `[0, 990]` (not `[0, 1000)`); every defined entry lies in
`[0, 1]`; the entries are all defined and sum to `1` whenever at least one
component has area `≤ 990`; and when no component has area `≤ 990` every
entry is NaN (`none`) — not `0`, and areas in `(990, 1000)` are silently
dropped. -/
theorem C4_feature_vector_amended (areas : List ℕ) :
    (build_features areas).length = 99 ∧
      (∀ x ∈ build_features areas, ∀ q : ℚ, x = some q → 0 ≤ q ∧ q ≤ 1) ∧
      ((∃ a ∈ areas, a ≤ 990) →
        ((build_features areas).map (fun x => x.getD 0)).sum = 1 ∧
          ∀ x ∈ build_features areas, x ≠ none) ∧
      ((∀ a ∈ areas, ¬ a ≤ 990) → ∀ x ∈ build_features areas, x = none) := by
  refine ⟨by simp [build_features], ?_, ?_, ?_⟩
  · intro x hx q hq
    simp only [build_features, List.mem_map] at hx
    obtain ⟨i, -, rfl⟩ := hx
    by_cases h0 : ((areas.filter (fun a => a < 1000)).filter (fun a => a ≤ 990)).length = 0
    · rw [if_pos h0] at hq
      exact absurd hq (by simp)
    · rw [if_neg h0] at hq
      have hq2 := Option.some.inj hq
      have hTpos : (0:ℚ) <
          (((areas.filter (fun a => a < 1000)).filter (fun a => a ≤ 990)).length : ℚ) := by
        exact_mod_cast Nat.pos_of_ne_zero h0
      constructor
      · rw [← hq2]
        positivity
      · rw [← hq2]
        rw [div_le_one hTpos]
        exact_mod_cast List.length_filter_le _ _
  · intro hex
    obtain ⟨a, ha, ha990⟩ := hex
    have hmem : a ∈ (areas.filter (fun a => a < 1000)).filter (fun a => a ≤ 990) := by
      refine List.mem_filter.mpr ⟨List.mem_filter.mpr ⟨ha, ?_⟩, ?_⟩
      · simp
        omega
      · simp [ha990]
    have h0 : ((areas.filter (fun a => a < 1000)).filter (fun a => a ≤ 990)).length ≠ 0 := by
      intro hc
      rw [List.length_eq_zero] at hc
      rw [hc] at hmem
      exact (List.not_mem_nil a) hmem
    constructor
    · have hallbins : ∀ b ∈ (areas.filter (fun a => a < 1000)).filter (fun a => a ≤ 990),
          binOf b < 99 := by
        intro b hb
        have := (List.mem_filter.mp hb).2
        exact binOf_lt_99 b (by simpa using this)
      have hsum := normalized_counts_sum
        ((areas.filter (fun a => a < 1000)).filter (fun a => a ≤ 990)) hallbins h0
      simp only [build_features, List.map_map]
      have heq : ((fun x : Option ℚ => x.getD 0) ∘ fun i =>
          if ((areas.filter (fun a => a < 1000)).filter (fun a => a ≤ 990)).length = 0 then none
          else some
            ((((areas.filter (fun a => a < 1000)).filter (fun a => a ≤ 990)).filter
                (fun a => binOf a = i)).length /
              (((areas.filter (fun a => a < 1000)).filter (fun a => a ≤ 990)).length : ℚ))) =
          fun i =>
            ((((areas.filter (fun a => a < 1000)).filter (fun a => a ≤ 990)).filter
                (fun a => binOf a = i)).length /
              (((areas.filter (fun a => a < 1000)).filter (fun a => a ≤ 990)).length : ℚ)) := by
        funext i
        simp only [Function.comp_apply, if_neg h0, Option.getD_some]
      rw [heq]
      exact hsum
    · intro x hx
      simp only [build_features, List.mem_map] at hx
      obtain ⟨i, -, rfl⟩ := hx
      rw [if_neg h0]
      simp
  · intro hall x hx
    have hnil : (areas.filter (fun a => a < 1000)).filter (fun a => a ≤ 990) = [] := by
      apply List.filter_eq_nil_iff.mpr
      intro a ha
      have := hall a (List.mem_filter.mp ha).1
      simpa using this
    simp only [build_features, List.mem_map] at hx
    obtain ⟨i, -, rfl⟩ := hx
    rw [if_pos (by rw [hnil]; rfl)]

/-- Witness for C4's amended theorem: on stats `[5]` the entries sum
to `1`. -/
theorem C4_feature_vector_amended_witness :
    ((build_features [5]).map (fun x => x.getD 0)).sum = 1 :=
  ((C4_feature_vector_amended [5]).2.2.1 ⟨5, by decide, by decide⟩).1

/-- C5, counterexample: the background row (index 0) is *not* excluded
from the feature histogram.  For statistics `[500, 50]` (background area
`500`, one object of area `50`), the feature vector built from the full
statistics differs from the one built from the background-free Area
Vector: the background area `500` is binned like any other component
because the code only ever filters by `area < 1000`. -/
theorem C5_background_counterexample :
    build_features [500, 50] ≠ build_features (get_stats_areas [500, 50]) := by
  with_unfolding_all decide

/-- C5, amended: the background row is always excluded from the counting
computations — the Area Vector is `stats[1:]` by construction — but it is
excluded from the feature histogram only through the `area < 1000` cutoff:
whenever the background component has area `≥ 1000` (the typical case) the
histogram equals the one computed without the background row. -/
theorem C5_background_exclusion (b : ℕ) (rest : List ℕ) (hb : 1000 ≤ b) :
    get_stats_areas (b :: rest) = rest ∧
      build_features (b :: rest) = build_features rest := by
  refine ⟨rfl, ?_⟩
  have hfil : (b :: rest).filter (fun a => a < 1000) =
      rest.filter (fun a => a < 1000) := by
    rw [List.filter_cons]
    simp [Nat.not_lt.mpr hb]
  simp only [build_features, hfil]

/-- Witness for C5's amended theorem with background area `1200` and one
object of area `50`. -/
theorem C5_background_exclusion_witness :
    get_stats_areas [1200, 50] = [50] ∧
      build_features [1200, 50] = build_features [50] :=
  C5_background_exclusion 1200 [50] (by decide)

/-! ### Claim about the train/test split: C6 -/

lemma npDeleteGo_mem {α : Type} (idxs : List ℕ) (xs : List α) (k : ℕ) (p : α)
    (hp : p ∈ npDeleteGo idxs k xs) :
    ∃ j : ℕ, ∃ h : j < xs.length, xs.get ⟨j, h⟩ = p ∧ (k + j) ∉ idxs := by
  induction xs generalizing k with
  | nil => simp [npDeleteGo] at hp
  | cons x rest ih =>
    unfold npDeleteGo at hp
    by_cases hk : k ∈ idxs
    · rw [if_pos hk] at hp
      obtain ⟨j, hj, hget, hnot⟩ := ih (k + 1) hp
      refine ⟨j + 1, Nat.succ_lt_succ hj, ?_, ?_⟩
      · simpa using hget
      · have harith : k + (j + 1) = (k + 1) + j := by omega
        rw [harith]
        exact hnot
    · rw [if_neg hk] at hp
      rcases List.mem_cons.mp hp with rfl | hp2
      · exact ⟨0, Nat.succ_pos _, rfl, by simpa using hk⟩
      · obtain ⟨j, hj, hget, hnot⟩ := ih (k + 1) hp2
        refine ⟨j + 1, Nat.succ_lt_succ hj, ?_, ?_⟩
        · simpa using hget
        · have harith : k + (j + 1) = (k + 1) + j := by omega
          rw [harith]
          exact hnot

lemma test_indices_mem (ids test_ids : List ℤ) (j : ℕ) (hj : j < ids.length) :
    j ∈ test_indices ids test_ids ↔ ids.getD j 0 ∈ test_ids := by
  unfold test_indices
  rw [List.mem_filter]
  simp [List.mem_range, hj]

/-- C6: the training rows passed to the regressor fit never include a row
whose image identifier is in the test-identifier set or in the drop set:
`read_data_frame` removes label-less rows and rows whose identifier is in
`drop_images`, and `get_model` deletes exactly the positions whose
identifier belongs to `test_ids` (`np.in1d(...).nonzero()`), so exclusion
is by identifier membership, not by position. -/
theorem C6_no_test_leakage (rows : List (ℤ × Option ℚ))
    (drop_images test_ids : List ℤ) (p : ℤ × Option ℚ)
    (hp : p ∈ np_delete (read_data_frame rows drop_images)
        (test_indices ((read_data_frame rows drop_images).map Prod.fst) test_ids)) :
    p.1 ∉ test_ids ∧ p.1 ∉ drop_images := by
  unfold np_delete at hp
  obtain ⟨j, hjlt, hget, hnot⟩ := npDeleteGo_mem _ _ 0 p hp
  have hjlt2 : j < ((read_data_frame rows drop_images).map Prod.fst).length := by
    simpa using hjlt
  constructor
  · intro hmem
    apply hnot
    rw [Nat.zero_add]
    rw [test_indices_mem _ _ j hjlt2]
    have hgetD : ((read_data_frame rows drop_images).map Prod.fst).getD j 0 = p.1 := by
      rw [List.getD_eq_get _ _ hjlt2, List.get_map, hget]
    rw [hgetD]
    exact hmem
  · have hpin : p ∈ read_data_frame rows drop_images := by
      rw [← hget]
      exact List.get_mem _ j hjlt
    unfold read_data_frame at hpin
    have := (List.mem_filter.mp hpin).2
    simpa using this

/-- Witness for C6: on a four-row table with drop set `{3}` and test set
`{5}`, the surviving training row `(1, some 2)` has its identifier in
neither set. -/
theorem C6_no_test_leakage_witness :
    ((1:ℤ), some (2:ℚ)).1 ∉ [(5:ℤ)] ∧ ((1:ℤ), some (2:ℚ)).1 ∉ [(3:ℤ)] :=
  C6_no_test_leakage [(1, some 2), (3, some 1), (4, none), (5, some 1)]
    [3] [5] (1, some 2) (by with_unfolding_all decide)
